import Mathlib

/-!
Verification of the Cashu mint core (`crates/cashu-sdk/src/mint.rs`).

The Rust code is shallowly embedded: the `Mint` struct and its request
handlers are translated into executable Lean definitions.  Hash maps and
hash sets are modelled as association lists / lists observed only through
lookup and membership; Rust panics (`unwrap`, `todo!`, arithmetic
underflow in debug builds) are modelled by a dedicated `RustResult.panic`
outcome that also records the state at the point of divergence, matching
what a caller that catches the unwind would observe.

Types and functions of the `cashu` crate (the error enum, the nut00/nut02
data types, `Amount::split`, the DHKE primitives, `KeySet::generate`) live
in this repository but outside the packaged sources; those are modelled
from the specification, each with a doc comment saying so.  Amounts are
modelled as unbounded naturals, following the specification's data model
(satoshi counts).
-/

namespace Cashu

/-- Modelled from the spec: the mint error taxonomy (§7).  The enum itself
is declared in the `cashu` crate, outside the packaged sources.  The two
uses of the crate's `Error::Amount` in `mint.rs` are rendered by their
spec names: `AmountMismatch` at the swap input/output mismatch site and
`InsufficientFunds` at the melt sufficiency site. -/
inductive Error where
  | UnknownKeySet
  | InactiveKeyset
  | AmountKey
  | TokenSpent
  | DuplicateProofs
  | AmountMismatch
  | InsufficientFunds
  | UnknownQuote
  | CryptoError
  | DuplicateActiveUnit
deriving DecidableEq

/-- Outcome of a Rust function: `Ok`, `Err`, or a panic (`unwrap` on `None`,
`todo!()`, debug-mode integer underflow). -/
inductive RustResult (α : Type) where
  | ok (a : α)
  | err (e : Error)
  | panic
deriving DecidableEq

/-- Returns `true` exactly on `ok` outcomes. -/
def RustResult.isOk {α : Type} : RustResult α → Bool
  | .ok _ => true
  | _ => false

/-- Amounts (`cashu::Amount`, a satoshi count). -/
abbrev Amount := Nat

/-- Secrets (`cashu::secret::Secret`, a wallet-chosen string). -/
abbrev Secret := String

/-- Modelled from the spec: the secp256k1 group is abstracted to arithmetic
modulo a fixed prime; curve points and scalars are residues. -/
def P : Nat := 2305843009213693951

/-- Deterministic string hash used by the modelled crypto primitives. -/
def strHash (s : String) : Nat :=
  s.data.foldl (fun a c => a * 131 + c.toNat + 17) 5381

/-- Modelled from the spec: `hash_to_curve` (§4.1) deterministically maps a
secret byte string to a curve point via a domain-separated hash. -/
def hash_to_curve (s : Secret) : Nat :=
  strHash ("Secp256k1_HashToCurve_Cashu_" ++ s) % P

/-- Modelled from the spec: `sign_message(k, B_) = k · B_` (§4.1).  In the
model every scalar and point is well formed, so the malformed-input
failure cannot arise. -/
def sign_message (k : Nat) (b : Nat) : Nat :=
  k * b % P

/-- Modelled from the spec: `verify_message(k, C, secret)` recomputes
`Y = hash_to_curve(secret)` and accepts iff `C = k · Y`, failing with
`CryptoError` otherwise (§4.1). -/
def verify_message (k : Nat) (c : Nat) (secret : Secret) : RustResult Unit :=
  if c = sign_message k (hash_to_curve secret) then .ok () else .err .CryptoError

/-- Lookup in an association list, the model of `HashMap::get`.
Insertion is modelled by consing, so the most recent binding wins. -/
def alookup {ν : Type} : List (Nat × ν) → Nat → Option ν
  | [], _ => none
  | (k, v) :: rest, key => if key = k then some v else alookup rest key

/-- Lookup in a string-keyed association list (`HashMap<String, _>::get`). -/
def slookup {ν : Type} : List (String × ν) → String → Option ν
  | [], _ => none
  | (k, v) :: rest, key => if key = k then some v else slookup rest key

/-- A mint keypair (`MintKeyPair`); only the secret key is read by
`mint.rs`, the public key feeds the keyset identifier. -/
structure MintKeyPair where
  public_key : Nat
  secret_key : Nat
deriving DecidableEq

/-- A mint-side keyset (`nut02::mint::KeySet`): id, unit and the
amount-to-keypair table (a `BTreeMap` modelled as an association list). -/
structure KeySet where
  id : Nat
  unit : String
  keys : List (Amount × MintKeyPair)
deriving DecidableEq

/-- The `MintKeySetInfo` struct from `mint.rs` (public policy data for a keyset). -/
structure MintKeySetInfo where
  id : Nat
  unit : String
  active : Bool
  valid_from : Nat
  valid_to : Option Nat
  derivation_path : String
  max_order : Nat
deriving DecidableEq

/-- Modelled from the spec: `crate::types::Quote` is outside the packaged
sources; the core only reads `id`, `amount` and `fee_reserve` (§9). -/
structure Quote where
  id : String
  amount : Amount
  fee_reserve : Amount
deriving DecidableEq

/-- The `FeeReserve` struct from `mint.rs`.  The `f32` percentage is carried opaquely
(as a rational); the core never computes with it. -/
structure FeeReserve where
  min_fee_reserve : Amount
  percent_fee_reserve : Rat
deriving DecidableEq

/-- Modelled from the spec: a proof `{ amount, id, secret, C }` (§6). -/
structure Proof where
  amount : Amount
  id : Nat
  secret : Secret
  c : Nat
deriving DecidableEq

/-- Modelled from the spec: a blinded message `{ amount, B_, id }` (§6). -/
structure BlindedMessage where
  amount : Amount
  b : Nat
  keyset_id : Nat
deriving DecidableEq

/-- Modelled from the spec: a blinded signature `{ amount, C_, id }` (§6). -/
structure BlindedSignature where
  amount : Amount
  c : Nat
  id : Nat
deriving DecidableEq

/-- Modelled from the spec: a swap request `{ inputs, outputs }` (§6). -/
structure SwapRequest where
  inputs : List Proof
  outputs : List BlindedMessage
deriving DecidableEq

/-- Modelled from the spec: swap response `{ signatures }` (§6). -/
structure SwapResponse where
  signatures : List BlindedSignature
deriving DecidableEq

/-- Sum of the input proof amounts (`SwapRequest::input_amount`). -/
def SwapRequest.input_amount (r : SwapRequest) : Amount :=
  (r.inputs.map Proof.amount).sum

/-- Sum of the output amounts (`SwapRequest::output_amount`). -/
def SwapRequest.output_amount (r : SwapRequest) : Amount :=
  (r.outputs.map BlindedMessage.amount).sum

/-- Modelled from the spec: a mint request `{ quote, outputs }` (§6). -/
structure MintBolt11Request where
  quote : String
  outputs : List BlindedMessage
deriving DecidableEq

/-- Modelled from the spec: mint response `{ signatures }` (§6). -/
structure MintBolt11Response where
  signatures : List BlindedSignature
deriving DecidableEq

/-- Modelled from the spec: a melt request `{ quote, inputs, outputs? }`
(§6). -/
structure MeltBolt11Request where
  quote : String
  inputs : List Proof
  outputs : Option (List BlindedMessage)
deriving DecidableEq

/-- Sum of the input proof amounts (`MeltBolt11Request::proofs_amount`). -/
def MeltBolt11Request.proofs_amount (r : MeltBolt11Request) : Amount :=
  (r.inputs.map Proof.amount).sum

/-- Modelled from the spec: melt response `{ paid, proof, change? }` (§6). -/
structure MeltBolt11Response where
  paid : Bool
  proof : String
  change : Option (List BlindedSignature)
deriving DecidableEq

/-- The mint state (`struct Mint`): keyset registry, keyset info registry,
spent and pending secret ledgers, fee reserve and quote map. -/
structure Mint where
  secret : String
  keysets : List (Nat × KeySet)
  keysets_info : List (Nat × MintKeySetInfo)
  spent_secrets : List Secret
  pending_secrets : List Secret
  fee_reserve : FeeReserve
  quotes : List (String × Quote)

/-- Modelled from the spec: the binary decomposition of an amount
(`Amount::split`, §4.5.5 "Amount decomposition"): for each set bit `i`
emit `2^i`; "Order is ascending unless a caller reverses it".  The fuel
argument (first) only forces structural termination; it is taken `≥ a`. -/
def splitAmountAux : Nat → Nat → List Nat
  | 0, _ => []
  | fuel + 1, a =>
    if a = 0 then []
    else
      let rest := (splitAmountAux fuel (a / 2)).map (fun x => x * 2)
      if a % 2 = 1 then 1 :: rest else rest

/-- Ascending binary decomposition of `a` (`Amount::split`). -/
def splitAmount (a : Amount) : List Amount :=
  splitAmountAux a a

/-- Number of set bits of `n` (base-2 digits equal to 1). -/
def popcount (n : Nat) : Nat :=
  (Nat.digits 2 n).count 1

/-- Descending insertion, stable for the strict comparison used. -/
def insertDesc (a : Nat) : List Nat → List Nat
  | [] => [a]
  | b :: bs => if b < a then a :: b :: bs else b :: insertDesc a bs

/-- Model of `Vec::sort_by(|a, b| b.cmp(a))` (descending sort); the melt
handler applies it to a list of distinct powers of two, so stability is
immaterial. -/
def sortDesc : List Nat → List Nat
  | [] => []
  | a :: as => insertDesc a (sortDesc as)

/-- Model of `Mint::blind_sign` (`mint.rs` lines 121-152): resolve the keyset
(`UnknownKeySet`), check that its info is registered (`UnknownKeySet`) and
active (`InactiveKeyset`), resolve the keypair for the amount
(`AmountKey`), and sign. -/
def blind_sign (m : Mint) (msg : BlindedMessage) : RustResult BlindedSignature :=
  match alookup m.keysets msg.keyset_id with
  | none => .err .UnknownKeySet
  | some keyset =>
    match alookup m.keysets_info msg.keyset_id with
    | none => .err .UnknownKeySet
    | some info =>
      if info.active = false then .err .InactiveKeyset
      else
        match alookup keyset.keys msg.amount with
        | none => .err .AmountKey
        | some key_pair =>
          .ok { amount := msg.amount
                c := sign_message key_pair.secret_key msg.b
                id := keyset.id }

/-- Model of `Mint::verify_proof` (`mint.rs` lines 196-214): spent check
(`TokenSpent`), keyset lookup (`UnknownKeySet`), key lookup (`AmountKey`),
then DHKE verification. -/
def verify_proof (m : Mint) (p : Proof) : RustResult Unit :=
  if p.secret ∈ m.spent_secrets then .err .TokenSpent
  else
    match alookup m.keysets p.id with
    | none => .err .UnknownKeySet
    | some keyset =>
      match alookup keyset.keys p.amount with
      | none => .err .AmountKey
      | some keypair => verify_message keypair.secret_key p.c p.secret

/-- The `for proof in &split_request.inputs { self.verify_proof(proof)? }`
loop: first failure short-circuits. -/
def verify_proofs (m : Mint) : List Proof → RustResult Unit
  | [] => .ok ()
  | p :: ps =>
    match verify_proof m p with
    | .ok _ => verify_proofs m ps
    | .err e => .err e
    | .panic => .panic

/-- The `for blinded_message in mint_request.outputs` signing loop with
`?` propagation (used by `process_mint_request`). -/
def blind_sign_all (m : Mint) : List BlindedMessage → RustResult (List BlindedSignature)
  | [] => .ok []
  | msg :: msgs =>
    match blind_sign m msg with
    | .err e => .err e
    | .panic => .panic
    | .ok s =>
      match blind_sign_all m msgs with
      | .err e => .err e
      | .panic => .panic
      | .ok ss => .ok (s :: ss)

/-- Model of `Mint::process_mint_request` (`mint.rs` lines 106-119): blind-sign each
output; the request's `quote` field is never read. -/
def process_mint_request (m : Mint) (r : MintBolt11Request) :
    Mint × RustResult MintBolt11Response :=
  match blind_sign_all m r.outputs with
  | .ok sigs => (m, .ok { signatures := sigs })
  | .err e => (m, .err e)
  | .panic => (m, .panic)

/-- Model of `Mint::process_split_request` (`mint.rs` lines 154-194).  The
`HashSet` of input secrets is modelled by `dedup` (same cardinality and
membership); the final `.map(|b| self.blind_sign(b).unwrap())` turns any
signing failure into a panic, after the ledger mutation. -/
def process_split_request (m : Mint) (r : SwapRequest) :
    Mint × RustResult SwapResponse :=
  if SwapRequest.input_amount r ≠ SwapRequest.output_amount r then
    (m, .err .AmountMismatch)
  else if (r.inputs.map Proof.secret).dedup.length ≠ r.inputs.length then
    (m, .err .DuplicateProofs)
  else
    match verify_proofs m r.inputs with
    | .err e => (m, .err e)
    | .panic => (m, .panic)
    | .ok _ =>
      let m' : Mint :=
        { m with spent_secrets := (r.inputs.map Proof.secret).dedup ++ m.spent_secrets }
      match blind_sign_all m' r.outputs with
      | .ok sigs => (m', .ok { signatures := sigs })
      | .err _ => (m', .panic)
      | .panic => (m', .panic)

/-- Model of `Mint::verify_melt_request` (`mint.rs` lines 232-258): the quote is
resolved with `.unwrap()` (panic when absent), then the sufficiency check,
the duplicate check, and the per-proof verification loop. -/
def verify_melt_request (m : Mint) (r : MeltBolt11Request) : RustResult Unit :=
  match slookup m.quotes r.quote with
  | none => .panic
  | some quote =>
    if MeltBolt11Request.proofs_amount r < quote.amount + quote.fee_reserve then
      .err .InsufficientFunds
    else if r.inputs.length ≠ (r.inputs.map Proof.secret).dedup.length then
      .err .DuplicateProofs
    else
      verify_proofs m r.inputs

/-- The `for (amount, blinded_message) in amounts.iter().zip(outputs)` loop
of the melt handler: each output's amount is overwritten with the paired
denomination before signing; `?` propagates signing errors. -/
def sign_change (m : Mint) : List (Amount × BlindedMessage) → RustResult (List BlindedSignature)
  | [] => .ok []
  | (a, msg) :: rest =>
    match blind_sign m { msg with amount := a } with
    | .err e => .err e
    | .panic => .panic
    | .ok s =>
      match sign_change m rest with
      | .err e => .err e
      | .panic => .panic
      | .ok ss => .ok (s :: ss)

/-- Model of `Mint::process_melt_request` (`mint.rs` lines 260-314).  The source
builds `secrets` as `Vec::with_capacity(..)` — an empty vector — and
iterates over it inserting into `spent_secrets`, so the insertion loop
(modelled as a fold) runs zero times and no input secret is ever
retired; the model mirrors that faithfully.  The `Amount`
subtraction `proofs_amount - total_spent` is modelled as a panic on
underflow (u64 debug overflow semantics); it is evaluated both in the
change branch and, inside the `info!` log argument, in the no-change
branch. -/
def process_melt_request (m : Mint) (r : MeltBolt11Request) (preimage : String)
    (total_spent : Amount) : Mint × RustResult MeltBolt11Response :=
  match verify_melt_request m r with
  | .err e => (m, .err e)
  | .panic => (m, .panic)
  | .ok _ =>
    let secrets : List Secret := []
    let m1 : Mint := secrets.foldl
      (fun acc s => { acc with spent_secrets := s :: acc.spent_secrets }) m
    match r.outputs with
    | some outputs =>
      if MeltBolt11Request.proofs_amount r < total_spent then (m1, .panic)
      else
        let change_target := MeltBolt11Request.proofs_amount r - total_spent
        let amounts := splitAmount change_target
        let amounts := if outputs.length < amounts.length then sortDesc amounts else amounts
        match sign_change m1 (amounts.zip outputs) with
        | .ok sigs => (m1, .ok { paid := true, proof := preimage, change := some sigs })
        | .err e => (m1, .err e)
        | .panic => (m1, .panic)
    | none =>
      if MeltBolt11Request.proofs_amount r < total_spent then (m1, .panic)
      else (m1, .ok { paid := true, proof := preimage, change := none })

/-- Modelled from the spec: the key derivation of `KeySet::generate`
(§4.2), an HMAC-like expansion of the seed salted with unit, derivation
path and index; abstracted to a deterministic hash. -/
def derivedSecretKey (seed unit path : String) (i : Nat) : Nat :=
  strHash (seed ++ "/" ++ unit ++ "/" ++ path ++ "/" ++ toString i) % P

/-- Modelled from the spec: a public key is the scalar times the base
point, abstracted to multiplication modulo `P`. -/
def pubOfSecret (k : Nat) : Nat :=
  k * 2 % P

/-- Modelled from the spec: the keyset identifier is a truncated hash of
the concatenated public keys (§4.2); the keys are generated in ascending
amount order. -/
def keysetIdOfKeys (keys : List (Amount × MintKeyPair)) : Nat :=
  (keys.map (fun kv => kv.2.public_key)).foldl (fun a k => (a * 131 + k) % 2 ^ 64) 0

/-- Modelled from the spec: `KeySet::generate(seed, unit, derivation_path,
max_order)` (§4.2) binds amount `2^i` to the `i`-th derived keypair for
`i ∈ [0, max_order)`. -/
def KeySet.generate (seed unit derivation_path : String) (max_order : Nat) : KeySet :=
  let keys := (List.range max_order).map (fun i =>
    let sk := derivedSecretKey seed unit derivation_path i
    (2 ^ i, MintKeyPair.mk (pubOfSecret sk) sk))
  { id := keysetIdOfKeys keys, unit := unit, keys := keys }

/-- The keyset-construction loop of `Mint::new` (`mint.rs` lines 46-62):
`keyset_info.active && !active_units.insert(unit)` hits `todo!()` — a
panic — when a second active keyset shares a unit; otherwise the generated
keyset is inserted under its own id and the info under the info's id. -/
def mintNewLoop (secret : String) :
    List MintKeySetInfo → List String → List (Nat × KeySet) → List (Nat × MintKeySetInfo) →
    RustResult (List (Nat × KeySet) × List (Nat × MintKeySetInfo))
  | [], _, keysets, info => .ok (keysets, info)
  | ki :: rest, active_units, keysets, info =>
    if ki.active = true ∧ ki.unit ∈ active_units then .panic
    else
      let active_units' := if ki.active then ki.unit :: active_units else active_units
      let ks := KeySet.generate secret ki.unit ki.derivation_path ki.max_order
      mintNewLoop secret rest active_units' ((ks.id, ks) :: keysets) ((ki.id, ki) :: info)

/-- Model of `Mint::new` (`mint.rs` lines 30-76). -/
def Mint.new (secret : String) (keysets_info : List MintKeySetInfo)
    (spent_secrets : List Secret) (quotes : List Quote)
    (min_fee_reserve : Amount) (percent_fee_reserve : Rat) : RustResult Mint :=
  let quotes_map := quotes.foldl (fun acc q => (q.id, q) :: acc) []
  match mintNewLoop secret keysets_info [] [] [] with
  | .ok pair =>
    .ok { secret := secret
          keysets := pair.1
          keysets_info := pair.2
          spent_secrets := spent_secrets
          pending_secrets := []
          fee_reserve := { min_fee_reserve := min_fee_reserve
                           percent_fee_reserve := percent_fee_reserve }
          quotes := quotes_map }
  | .err e => .err e
  | .panic => .panic

/-! ### A concrete mint used by counterexamples, failing inputs and witnesses -/

/-- Seed of the example mint. -/
def exSeed : String := "mintseed"

/-- Example keyset: unit `"sat"`, denominations 1, 2, 4, 8, 16. -/
def exKeySet : KeySet := KeySet.generate exSeed "sat" "m" 5

/-- Active info for the example keyset. -/
def exInfo : MintKeySetInfo :=
  { id := exKeySet.id, unit := "sat", active := true, valid_from := 0
    valid_to := none, derivation_path := "m", max_order := 5 }

/-- Quote `q1`: amount 10, fee reserve 2 (spec §8 scenario 5). -/
def exQuote1 : Quote := { id := "q1", amount := 10, fee_reserve := 2 }

/-- Quote `q2`: amount 1, no fee reserve. -/
def exQuote2 : Quote := { id := "q2", amount := 1, fee_reserve := 0 }

/-- The example mint state. -/
def exMint : Mint :=
  { secret := exSeed
    keysets := [(exKeySet.id, exKeySet)]
    keysets_info := [(exKeySet.id, exInfo)]
    spent_secrets := []
    pending_secrets := []
    fee_reserve := { min_fee_reserve := 0, percent_fee_reserve := 0 }
    quotes := [("q1", exQuote1), ("q2", exQuote2)] }

/-- The example keyset's secret key for a given amount. -/
def exSecretKeyFor (a : Amount) : Nat :=
  ((alookup exKeySet.keys a).getD (MintKeyPair.mk 0 0)).secret_key

/-- A proof for the example keyset that passes DHKE verification. -/
def mkProof (a : Amount) (s : Secret) : Proof :=
  { amount := a, id := exKeySet.id, secret := s
    c := sign_message (exSecretKeyFor a) (hash_to_curve s) }

/-- Three change outputs for the melt-change scenario (spec §8
scenario 5); their amount fields are overwritten by the handler. -/
def c9Outs : List BlindedMessage :=
  [{ amount := 1, b := 201, keyset_id := exKeySet.id },
   { amount := 1, b := 202, keyset_id := exKeySet.id },
   { amount := 1, b := 203, keyset_id := exKeySet.id }]

/-- Melt request for quote `q1` with inputs totalling 16 and three change
outputs; with `total_spent = 10` the change target is 6. -/
def c9Req : MeltBolt11Request :=
  { quote := "q1", inputs := [mkProof 16 "melt16"], outputs := some c9Outs }

/-- The change signatures the code produces for `c9Req`: amounts 2 then 4
(ascending), paired with outputs 0 and 1; output 2 is discarded. -/
def c9sigs : List BlindedSignature :=
  [{ amount := 2, c := sign_message (exSecretKeyFor 2) 201, id := exKeySet.id },
   { amount := 4, c := sign_message (exSecretKeyFor 4) 202, id := exKeySet.id }]

/-- The melt response the code produces for `c9Req`. -/
def c9Resp : MeltBolt11Response :=
  { paid := true, proof := "pi", change := some c9sigs }

/-- Melt request against quote `q2` whose single input (amount 1, secret
`"melt-secret"`) is valid and exactly sufficient; no change outputs. -/
def exMeltReq : MeltBolt11Request :=
  { quote := "q2", inputs := [mkProof 1 "melt-secret"], outputs := none }

/-- A blinded output referencing an unregistered keyset id. -/
def c4Out : BlindedMessage :=
  { amount := 1, b := 55, keyset_id := exKeySet.id + 1 }

/-- Swap request with a valid input and an output whose keyset is unknown,
so input validation succeeds and output signing fails. -/
def c4Req : SwapRequest :=
  { inputs := [mkProof 1 "c4-secret"], outputs := [c4Out] }

/-- Melt request referencing a quote id absent from the quote map. -/
def c5Req : MeltBolt11Request :=
  { quote := "no-such-quote", inputs := [], outputs := none }

/-- First of two active keyset infos sharing unit `"sat"`. -/
def c6InfoA : MintKeySetInfo :=
  { id := 1, unit := "sat", active := true, valid_from := 0, valid_to := none
    derivation_path := "a", max_order := 1 }

/-- Second active keyset info with the same unit `"sat"`. -/
def c6InfoB : MintKeySetInfo :=
  { id := 2, unit := "sat", active := true, valid_from := 0, valid_to := none
    derivation_path := "b", max_order := 1 }

/-- The example mint with secret `"s1"` already spent. -/
def cmSpent : Mint :=
  { exMint with spent_secrets := ["s1"] }

/-- Swap request carrying the already-spent secret `"s1"` but with
mismatched amounts (input total 1, output total 0). -/
def c2SpentReq : SwapRequest :=
  { inputs := [mkProof 1 "s1"], outputs := [] }

/-- The empty swap request (no inputs, no outputs). -/
def c2EmptyReq : SwapRequest :=
  { inputs := [], outputs := [] }

/-- Swap request with mismatched totals (input total 1, output total 0)
used to exercise the amount-mismatch short-circuit. -/
def c3MismatchReq : SwapRequest :=
  { inputs := [mkProof 1 "c3-secret"], outputs := [] }

/-- A valid swap: two inputs of amount 2 (secrets `"w1"`, `"w2"`) for one
output of amount 4 (spec §8 scenario 2). -/
def wSwapReq : SwapRequest :=
  { inputs := [mkProof 2 "w1", mkProof 2 "w2"]
    outputs := [{ amount := 4, b := 301, keyset_id := exKeySet.id }] }

/-- The signatures the mint returns for `wSwapReq`. -/
def wSwapSigs : List BlindedSignature :=
  [{ amount := 4, c := sign_message (exSecretKeyFor 4) 301, id := exKeySet.id }]

/-- The example mint after accepting `wSwapReq`. -/
def wMintAfter : Mint :=
  { exMint with spent_secrets := ["w1", "w2"] }

/-!
## Helper lemmas
-/

/-- The primitive `verify_message` either accepts or fails with `CryptoError`. -/
theorem verify_message_ok_or_crypto (k c : Nat) (s : Secret) :
    verify_message k c s = .ok () ∨ verify_message k c s = .err .CryptoError := by
  unfold verify_message
  split
  · exact Or.inl rfl
  · exact Or.inr rfl

/-- A proof whose secret is spent fails verification with `TokenSpent`. -/
theorem verify_proof_spent {m : Mint} {p : Proof} (h : p.secret ∈ m.spent_secrets) :
    verify_proof m p = .err .TokenSpent := by
  unfold verify_proof
  rw [if_pos h]

/-- Exhaustive characterisation of `verify_proof`, in check order: spent
secret, unknown keyset, missing amount key, then DHKE verification. -/
theorem verify_proof_cases (m : Mint) (p : Proof) :
    (p.secret ∈ m.spent_secrets ∧ verify_proof m p = .err .TokenSpent) ∨
    (p.secret ∉ m.spent_secrets ∧ alookup m.keysets p.id = none ∧
      verify_proof m p = .err .UnknownKeySet) ∨
    (∃ ks, p.secret ∉ m.spent_secrets ∧ alookup m.keysets p.id = some ks ∧
      alookup ks.keys p.amount = none ∧ verify_proof m p = .err .AmountKey) ∨
    (∃ ks kp, p.secret ∉ m.spent_secrets ∧ alookup m.keysets p.id = some ks ∧
      alookup ks.keys p.amount = some kp ∧
      verify_proof m p = verify_message kp.secret_key p.c p.secret) := by
  by_cases hs : p.secret ∈ m.spent_secrets
  · exact Or.inl ⟨hs, verify_proof_spent hs⟩
  cases hks : alookup m.keysets p.id with
  | none =>
    refine Or.inr (Or.inl ⟨hs, rfl, ?_⟩)
    simp [verify_proof, hs, hks]
  | some ks =>
    cases hkp : alookup ks.keys p.amount with
    | none =>
      refine Or.inr (Or.inr (Or.inl ⟨ks, hs, rfl, hkp, ?_⟩))
      simp [verify_proof, hs, hks, hkp]
    | some kp =>
      refine Or.inr (Or.inr (Or.inr ⟨ks, kp, hs, rfl, hkp, ?_⟩))
      simp [verify_proof, hs, hks, hkp]

/-- A proof that verifies has an unspent secret. -/
theorem verify_proof_ok_not_spent {m : Mint} {p : Proof}
    (h : verify_proof m p = .ok ()) : p.secret ∉ m.spent_secrets := by
  intro hs
  rw [verify_proof_spent hs] at h
  cases h

/-- If the verification loop accepts a list, every proof in it verifies. -/
theorem verify_proofs_ok {m : Mint} :
    ∀ {ps : List Proof}, verify_proofs m ps = .ok () → ∀ p ∈ ps, verify_proof m p = .ok ()
  | [], _, p, hp => absurd hp (List.not_mem_nil p)
  | q :: ps, h, p, hp => by
    unfold verify_proofs at h
    cases hv : verify_proof m q with
    | ok a =>
      rw [hv] at h
      cases a
      rcases List.mem_cons.mp hp with rfl | hp'
      · exact hv
      · exact verify_proofs_ok h p hp'
    | err e => rw [hv] at h; cases h
    | panic => rw [hv] at h; cases h

/-- The verification loop rejects any list containing a spent secret. -/
theorem verify_proofs_spent {m : Mint} {ps : List Proof} {p : Proof}
    (hp : p ∈ ps) (hs : p.secret ∈ m.spent_secrets) :
    verify_proofs m ps ≠ .ok () := by
  intro h
  have h1 := verify_proofs_ok h p hp
  rw [verify_proof_spent hs] at h1
  cases h1

/-- The verification loop fails immediately when its head fails. -/
theorem verify_proofs_cons_err {m : Mint} {p : Proof} {ps : List Proof} {e : Error}
    (h : verify_proof m p = .err e) : verify_proofs m (p :: ps) = .err e := by
  unfold verify_proofs
  rw [h]

/-- Swap: the amount-mismatch short-circuit. -/
theorem split_amount_mismatch {m : Mint} {r : SwapRequest}
    (h : SwapRequest.input_amount r ≠ SwapRequest.output_amount r) :
    process_split_request m r = (m, .err .AmountMismatch) := by
  unfold process_split_request
  rw [if_pos h]

/-- Swap: the duplicate-secret short-circuit. -/
theorem split_duplicate {m : Mint} {r : SwapRequest}
    (h1 : SwapRequest.input_amount r = SwapRequest.output_amount r)
    (h2 : (r.inputs.map Proof.secret).dedup.length ≠ r.inputs.length) :
    process_split_request m r = (m, .err .DuplicateProofs) := by
  unfold process_split_request
  rw [if_neg (by simp [h1]), if_pos h2]

/-- Swap: a proof-verification failure is propagated, state untouched. -/
theorem split_verify_err {m : Mint} {r : SwapRequest} {e : Error}
    (h1 : SwapRequest.input_amount r = SwapRequest.output_amount r)
    (h2 : (r.inputs.map Proof.secret).dedup.length = r.inputs.length)
    (hv : verify_proofs m r.inputs = .err e) :
    process_split_request m r = (m, .err e) := by
  unfold process_split_request
  rw [if_neg (by simp [h1]), if_neg (by simp [h2]), hv]

/-- Swap: once all validations pass, the secrets are inserted and the
outputs signed (with `unwrap`, so signing failures panic). -/
theorem split_verify_ok {m : Mint} {r : SwapRequest}
    (h1 : SwapRequest.input_amount r = SwapRequest.output_amount r)
    (h2 : (r.inputs.map Proof.secret).dedup.length = r.inputs.length)
    (hv : verify_proofs m r.inputs = .ok ()) :
    process_split_request m r =
      (match blind_sign_all
          { m with spent_secrets := (r.inputs.map Proof.secret).dedup ++ m.spent_secrets }
          r.outputs with
        | .ok sigs =>
          ({ m with spent_secrets := (r.inputs.map Proof.secret).dedup ++ m.spent_secrets },
            .ok { signatures := sigs })
        | .err _ =>
          ({ m with spent_secrets := (r.inputs.map Proof.secret).dedup ++ m.spent_secrets },
            .panic)
        | .panic =>
          ({ m with spent_secrets := (r.inputs.map Proof.secret).dedup ++ m.spent_secrets },
            .panic)) := by
  unfold process_split_request
  rw [if_neg (by simp [h1]), if_neg (by simp [h2]), hv]

/-- Inversion of an accepted swap. -/
theorem split_ok_inversion {m m' : Mint} {r : SwapRequest} {resp : SwapResponse}
    (h : process_split_request m r = (m', .ok resp)) :
    SwapRequest.input_amount r = SwapRequest.output_amount r ∧
    (r.inputs.map Proof.secret).dedup.length = r.inputs.length ∧
    verify_proofs m r.inputs = .ok () ∧
    m' = { m with spent_secrets := (r.inputs.map Proof.secret).dedup ++ m.spent_secrets } ∧
    blind_sign_all m' r.outputs = .ok resp.signatures := by
  by_cases h1 : SwapRequest.input_amount r = SwapRequest.output_amount r
  case neg =>
    rw [split_amount_mismatch h1] at h
    cases h
  by_cases h2 : (r.inputs.map Proof.secret).dedup.length = r.inputs.length
  case neg =>
    rw [split_duplicate h1 h2] at h
    cases h
  cases hv : verify_proofs m r.inputs with
  | err e =>
    rw [split_verify_err h1 h2 hv] at h
    cases h
  | panic =>
    unfold process_split_request at h
    rw [if_neg (by simp [h1]), if_neg (by simp [h2]), hv] at h
    cases h
  | ok a =>
    cases a
    rw [split_verify_ok h1 h2 hv] at h
    cases hb : blind_sign_all
        { m with spent_secrets := (r.inputs.map Proof.secret).dedup ++ m.spent_secrets }
        r.outputs with
    | ok sigs =>
      rw [hb] at h
      dsimp only at h
      injection h with hm hr
      injection hr with hr
      subst hm
      refine ⟨h1, h2, rfl, rfl, ?_⟩
      rw [hb, ← hr]
    | err e =>
      rw [hb] at h
      dsimp only at h
      injection h with _ hr
      cases hr
    | panic =>
      rw [hb] at h
      dsimp only at h
      injection h with _ hr
      cases hr

/-- The swap handler only ever returns the caller's state or the state
with the input secrets appended to the spent ledger. -/
theorem split_spent_monotone (m : Mint) (r : SwapRequest) :
    ∀ s ∈ m.spent_secrets, s ∈ (process_split_request m r).1.spent_secrets := by
  intro s hs
  unfold process_split_request
  split
  · exact hs
  split
  · exact hs
  split
  · exact hs
  · exact hs
  · dsimp only
    split
    · exact List.mem_append_right _ hs
    · exact List.mem_append_right _ hs
    · exact List.mem_append_right _ hs

/-- Any error exit of the swap handler leaves the state exactly as it
was. -/
theorem split_err_state {m m' : Mint} {r : SwapRequest} {e : Error}
    (h : process_split_request m r = (m', .err e)) : m' = m := by
  unfold process_split_request at h
  split at h
  · injection h with hm _
    exact hm.symm
  split at h
  · injection h with hm _
    exact hm.symm
  split at h
  · injection h with hm _
    exact hm.symm
  · injection h with _ hr
    cases hr
  · dsimp only at h
    split at h
    · injection h with _ hr
      cases hr
    · injection h with _ hr
      cases hr
    · injection h with _ hr
      cases hr

/-- Melt verification accepting implies the per-proof loop accepted. -/
theorem melt_verify_ok_proofs {m : Mint} {r : MeltBolt11Request} {u : Unit}
    (h : verify_melt_request m r = .ok u) : verify_proofs m r.inputs = .ok () := by
  unfold verify_melt_request at h
  split at h
  · cases h
  · split at h
    · cases h
    split at h
    · cases h
    · cases u
      exact h

/-- The melt handler never changes the mint state: the insertion loop
iterates over an empty vector. -/
theorem melt_state_id (m : Mint) (r : MeltBolt11Request) (pre : String) (ts : Amount) :
    (process_melt_request m r pre ts).1 = m := by
  unfold process_melt_request
  split
  · rfl
  · rfl
  · dsimp only
    split
    · split
      · rfl
      · split
        · rfl
        · rfl
        · rfl
    · split
      · rfl
      · rfl

/-- Inversion of an accepted melt. -/
theorem melt_ok_inversion {m m' : Mint} {r : MeltBolt11Request} {pre : String}
    {ts : Amount} {resp : MeltBolt11Response}
    (h : process_melt_request m r pre ts = (m', .ok resp)) :
    verify_melt_request m r = .ok () ∧ m' = m ∧
    resp.paid = true ∧ resp.proof = pre ∧
    ¬ MeltBolt11Request.proofs_amount r < ts ∧
    ((r.outputs = none ∧ resp.change = none) ∨
      (∃ outs sigs, r.outputs = some outs ∧ resp.change = some sigs ∧
        sign_change m
          ((if outs.length < (splitAmount (MeltBolt11Request.proofs_amount r - ts)).length
            then sortDesc (splitAmount (MeltBolt11Request.proofs_amount r - ts))
            else splitAmount (MeltBolt11Request.proofs_amount r - ts)).zip outs) =
          .ok sigs)) := by
  unfold process_melt_request at h
  cases hv : verify_melt_request m r with
  | err e => rw [hv] at h; cases h
  | panic => rw [hv] at h; cases h
  | ok a =>
    cases a
    rw [hv] at h
    dsimp only at h
    simp only [List.foldl_nil] at h
    cases ho : r.outputs with
    | none =>
      rw [ho] at h
      dsimp only at h
      by_cases hlt : MeltBolt11Request.proofs_amount r < ts
      · rw [if_pos hlt] at h
        cases h
      rw [if_neg hlt] at h
      injection h with hm hr
      injection hr with hr
      exact ⟨rfl, hm.symm, by rw [← hr], by rw [← hr], hlt, Or.inl ⟨rfl, by rw [← hr]⟩⟩
    | some outs =>
      rw [ho] at h
      dsimp only at h
      by_cases hlt : MeltBolt11Request.proofs_amount r < ts
      · rw [if_pos hlt] at h
        cases h
      rw [if_neg hlt] at h
      cases hs : sign_change m
          ((if outs.length < (splitAmount (MeltBolt11Request.proofs_amount r - ts)).length
            then sortDesc (splitAmount (MeltBolt11Request.proofs_amount r - ts))
            else splitAmount (MeltBolt11Request.proofs_amount r - ts)).zip outs) with
      | ok sigs =>
        rw [hs] at h
        dsimp only at h
        injection h with hm hr
        injection hr with hr
        refine ⟨rfl, hm.symm, by rw [← hr], by rw [← hr], hlt,
          Or.inr ⟨outs, sigs, rfl, by rw [← hr], hs⟩⟩
      | err e =>
        rw [hs] at h
        cases h
      | panic =>
        rw [hs] at h
        cases h

/-- A swap whose inputs contain an already-spent secret is never
accepted. -/
theorem split_not_ok_of_spent {m : Mint} {r : SwapRequest}
    (hsp : ∃ p, p ∈ r.inputs ∧ p.secret ∈ m.spent_secrets) :
    (process_split_request m r).2.isOk = false := by
  obtain ⟨p, hp, hs⟩ := hsp
  unfold process_split_request
  split
  · rfl
  split
  · rfl
  cases hv : verify_proofs m r.inputs with
  | err e => rfl
  | panic => rfl
  | ok a =>
    cases a
    exact absurd hv (verify_proofs_spent hp hs)

/-- A melt whose inputs contain an already-spent secret is never
accepted. -/
theorem melt_not_ok_of_spent {m : Mint} {mr : MeltBolt11Request} {pre : String}
    {ts : Amount} (hsp : ∃ p, p ∈ mr.inputs ∧ p.secret ∈ m.spent_secrets) :
    (process_melt_request m mr pre ts).2.isOk = false := by
  obtain ⟨p, hp, hs⟩ := hsp
  unfold process_melt_request
  cases hv : verify_melt_request m mr with
  | err e => rfl
  | panic => rfl
  | ok a => exact absurd (melt_verify_ok_proofs hv) (verify_proofs_spent hp hs)

/-- The mint handler never changes the state. -/
theorem mint_state_id (m : Mint) (qr : MintBolt11Request) :
    (process_mint_request m qr).1 = m := by
  unfold process_mint_request
  split
  · rfl
  · rfl
  · rfl

/-- Replaying an accepted non-empty swap hits the spent check: the first
input's secret is now in the ledger, so the request fails `TokenSpent`. -/
theorem split_replay {m m' : Mint} {r : SwapRequest} {resp : SwapResponse}
    (h : process_split_request m r = (m', .ok resp)) (hne : r.inputs ≠ []) :
    process_split_request m' r = (m', .err .TokenSpent) := by
  obtain ⟨h1, h2, hv, hm, _⟩ := split_ok_inversion h
  cases hi : r.inputs with
  | nil => exact absurd hi hne
  | cons p ps =>
    have hpmem : p.secret ∈ m'.spent_secrets := by
      rw [hm]
      apply List.mem_append_left
      rw [List.mem_dedup, hi]
      exact List.mem_map_of_mem Proof.secret (List.mem_cons_self p ps)
    have hv' : verify_proofs m' r.inputs = .err .TokenSpent := by
      rw [hi]
      exact verify_proofs_cons_err (verify_proof_spent hpmem)
    exact split_verify_err h1 h2 hv'

/-- Doubling every element doubles the sum. -/
theorem sum_map_double : ∀ (l : List Nat), (l.map (fun x => x * 2)).sum = l.sum * 2
  | [] => rfl
  | x :: xs => by
    rw [List.map_cons, List.sum_cons, List.sum_cons, sum_map_double xs]
    omega

/-- The binary decomposition sums back to the amount. -/
theorem splitAmountAux_sum : ∀ (f a : Nat), a ≤ f → (splitAmountAux f a).sum = a
  | 0, a, h => by
    have ha : a = 0 := Nat.le_zero.mp h
    subst ha
    rfl
  | f + 1, a, h => by
    unfold splitAmountAux
    by_cases ha : a = 0
    · rw [if_pos ha, ha]
      rfl
    rw [if_neg ha]
    dsimp only
    have hlt : a / 2 < a := Nat.div_lt_self (Nat.pos_of_ne_zero ha) (by decide)
    have ih := splitAmountAux_sum f (a / 2) (by omega)
    have hdm := sum_map_double (splitAmountAux f (a / 2))
    by_cases hodd : a % 2 = 1
    · rw [if_pos hodd, List.sum_cons, hdm, ih]
      omega
    · rw [if_neg hodd, hdm, ih]
      omega

/-- The decomposition has one element per set bit. -/
theorem splitAmountAux_length : ∀ (f a : Nat), a ≤ f →
    (splitAmountAux f a).length = (Nat.digits 2 a).count 1
  | 0, a, h => by
    have ha : a = 0 := Nat.le_zero.mp h
    subst ha
    simp [splitAmountAux]
  | f + 1, a, h => by
    unfold splitAmountAux
    by_cases ha : a = 0
    · rw [if_pos ha, ha]
      simp
    rw [if_neg ha]
    dsimp only
    have hlt : a / 2 < a := Nat.div_lt_self (Nat.pos_of_ne_zero ha) (by decide)
    have ih := splitAmountAux_length f (a / 2) (by omega)
    have hdig : Nat.digits 2 a = a % 2 :: Nat.digits 2 (a / 2) :=
      Nat.digits_def' (by decide) (Nat.pos_of_ne_zero ha)
    rw [hdig]
    by_cases hodd : a % 2 = 1
    · rw [if_pos hodd, hodd]
      simp [List.count_cons, ih]
    · have h0 : a % 2 = 0 := by omega
      rw [if_neg hodd, h0]
      simp [List.count_cons, ih]

/-- Every element of the decomposition is positive. -/
theorem splitAmountAux_pos : ∀ (f a : Nat), ∀ x ∈ splitAmountAux f a, 0 < x
  | 0, _ => by
    intro x hx
    cases hx
  | f + 1, a => by
    intro x hx
    unfold splitAmountAux at hx
    by_cases ha : a = 0
    · rw [if_pos ha] at hx
      cases hx
    rw [if_neg ha] at hx
    dsimp only at hx
    by_cases hodd : a % 2 = 1
    · rw [if_pos hodd] at hx
      rcases List.mem_cons.mp hx with rfl | hx'
      · decide
      · obtain ⟨y, hy, rfl⟩ := List.mem_map.mp hx'
        have := splitAmountAux_pos f (a / 2) y hy
        omega
    · rw [if_neg hodd] at hx
      obtain ⟨y, hy, rfl⟩ := List.mem_map.mp hx
      have := splitAmountAux_pos f (a / 2) y hy
      omega

/-- Every element of the decomposition is a power of two. -/
theorem splitAmountAux_pow : ∀ (f a : Nat), ∀ x ∈ splitAmountAux f a, ∃ i, x = 2 ^ i
  | 0, _ => by
    intro x hx
    cases hx
  | f + 1, a => by
    intro x hx
    unfold splitAmountAux at hx
    by_cases ha : a = 0
    · rw [if_pos ha] at hx
      cases hx
    rw [if_neg ha] at hx
    dsimp only at hx
    by_cases hodd : a % 2 = 1
    · rw [if_pos hodd] at hx
      rcases List.mem_cons.mp hx with rfl | hx'
      · exact ⟨0, rfl⟩
      · obtain ⟨y, hy, rfl⟩ := List.mem_map.mp hx'
        obtain ⟨i, rfl⟩ := splitAmountAux_pow f (a / 2) y hy
        exact ⟨i + 1, by rw [pow_succ]⟩
    · rw [if_neg hodd] at hx
      obtain ⟨y, hy, rfl⟩ := List.mem_map.mp hx
      obtain ⟨i, rfl⟩ := splitAmountAux_pow f (a / 2) y hy
      exact ⟨i + 1, by rw [pow_succ]⟩

/-- The decomposition is strictly ascending. -/
theorem splitAmountAux_sorted : ∀ (f a : Nat), List.Sorted (· < ·) (splitAmountAux f a)
  | 0, _ => List.sorted_nil
  | f + 1, a => by
    unfold splitAmountAux
    by_cases ha : a = 0
    · rw [if_pos ha]
      exact List.sorted_nil
    rw [if_neg ha]
    dsimp only
    have hmap : List.Sorted (· < ·) ((splitAmountAux f (a / 2)).map (fun x => x * 2)) :=
      (splitAmountAux_sorted f (a / 2)).map _ (fun x y hxy => by omega)
    by_cases hodd : a % 2 = 1
    · rw [if_pos hodd]
      refine List.pairwise_cons.mpr ⟨?_, hmap⟩
      intro x hx
      obtain ⟨y, hy, rfl⟩ := List.mem_map.mp hx
      have := splitAmountAux_pos f (a / 2) y hy
      omega
    · rw [if_neg hodd]
      exact hmap

/-- The decomposition `Amount::split` sums back to the amount. -/
theorem splitAmount_sum (a : Amount) : (splitAmount a).sum = a :=
  splitAmountAux_sum a a (Nat.le_refl a)

/-- The decomposition `Amount::split` has `popcount a` elements. -/
theorem splitAmount_length (a : Amount) : (splitAmount a).length = popcount a :=
  splitAmountAux_length a a (Nat.le_refl a)

/-- The decomposition `Amount::split` emits positive values. -/
theorem splitAmount_pos (a : Amount) : ∀ x ∈ splitAmount a, 0 < x :=
  splitAmountAux_pos a a

/-- The decomposition `Amount::split` emits powers of two. -/
theorem splitAmount_pow (a : Amount) : ∀ x ∈ splitAmount a, ∃ i, x = 2 ^ i :=
  splitAmountAux_pow a a

/-- The decomposition `Amount::split` is strictly ascending. -/
theorem splitAmount_sorted (a : Amount) : List.Sorted (· < ·) (splitAmount a) :=
  splitAmountAux_sorted a a

/-- Descending insertion permutes a cons. -/
theorem insertDesc_perm (a : Nat) : ∀ (l : List Nat), List.Perm (insertDesc a l) (a :: l)
  | [] => List.Perm.refl _
  | b :: bs => by
    unfold insertDesc
    split
    · exact List.Perm.refl _
    · exact ((insertDesc_perm a bs).cons b).trans (List.Perm.swap a b bs)

/-- Descending sort is a permutation. -/
theorem sortDesc_perm : ∀ (l : List Nat), List.Perm (sortDesc l) l
  | [] => List.Perm.refl _
  | a :: as => by
    unfold sortDesc
    exact (insertDesc_perm a (sortDesc as)).trans ((sortDesc_perm as).cons a)

/-- A prefix sums to at most the whole. -/
theorem sum_take_le (l : List Nat) (k : Nat) : (l.take k).sum ≤ l.sum := by
  conv_rhs => rw [← List.take_append_drop k l]
  rw [List.sum_append]
  exact Nat.le_add_right _ _

/-- A proper prefix of a positive list sums to strictly less. -/
theorem sum_take_lt {l : List Nat} {k : Nat} (hpos : ∀ x ∈ l, 0 < x)
    (hk : k < l.length) : (l.take k).sum < l.sum := by
  conv_rhs => rw [← List.take_append_drop k l]
  rw [List.sum_append]
  cases hd : l.drop k with
  | nil =>
    have := congrArg List.length hd
    rw [List.length_drop] at this
    simp at this
    omega
  | cons x xs =>
    have hx : x ∈ l := List.mem_of_mem_drop (hd ▸ List.mem_cons_self x xs)
    have hxpos := hpos x hx
    rw [List.sum_cons]
    omega

/-- First components of a zip are a prefix of the first list. -/
theorem zip_map_fst {β : Type} : ∀ (l₁ : List Nat) (l₂ : List β),
    (l₁.zip l₂).map Prod.fst = l₁.take l₂.length
  | [], l₂ => by simp
  | a :: as, [] => by simp
  | a :: as, b :: bs => by
    simp only [List.zip_cons_cons, List.map_cons, List.length_cons, List.take_succ_cons]
    rw [zip_map_fst as bs]

/-- A successful blind signature carries the message's amount. -/
theorem blind_sign_ok_amount {m : Mint} {msg : BlindedMessage} {sig : BlindedSignature}
    (h : blind_sign m msg = .ok sig) : sig.amount = msg.amount := by
  unfold blind_sign at h
  split at h
  · cases h
  · split at h
    · cases h
    · split at h
      · cases h
      · split at h
        · cases h
        · injection h with h
          rw [← h]

/-- The change-signing loop returns signatures whose amounts are exactly
the paired denominations, in order. -/
theorem sign_change_amounts {m : Mint} :
    ∀ {pairs : List (Amount × BlindedMessage)} {sigs : List BlindedSignature},
      sign_change m pairs = .ok sigs →
      sigs.map BlindedSignature.amount = pairs.map Prod.fst
  | [], sigs, h => by
    unfold sign_change at h
    injection h with h
    subst h
    rfl
  | (a, msg) :: rest, sigs, h => by
    unfold sign_change at h
    cases hb : blind_sign m { msg with amount := a } with
    | err e => rw [hb] at h; cases h
    | panic => rw [hb] at h; cases h
    | ok s =>
      rw [hb] at h
      dsimp only at h
      cases hr : sign_change m rest with
      | err e => rw [hr] at h; cases h
      | panic => rw [hr] at h; cases h
      | ok ss =>
        rw [hr] at h
        dsimp only at h
        injection h with h
        subst h
        rw [List.map_cons, List.map_cons, sign_change_amounts hr]
        have hs : s.amount = a := blind_sign_ok_amount hb
        rw [hs]

/-- Invariant of the keyset-construction loop of `Mint::new`: every
accumulated binding maps an id to the keyset carrying that id (keysets
are inserted under their own generated id). -/
theorem mintNewLoop_keysets_wf (secret : String) :
    ∀ (infos : List MintKeySetInfo) (units : List String)
      (ks : List (Nat × KeySet)) (inf : List (Nat × MintKeySetInfo))
      (res : List (Nat × KeySet) × List (Nat × MintKeySetInfo)),
      mintNewLoop secret infos units ks inf = .ok res →
      (∀ i k, alookup ks i = some k → k.id = i) →
      ∀ i k, alookup res.1 i = some k → k.id = i
  | [], _, ks, inf, res, h, hwf => by
    unfold mintNewLoop at h
    injection h with h
    subst h
    exact hwf
  | ki :: rest, units, ks, inf, res, h, hwf => by
    unfold mintNewLoop at h
    split at h
    · cases h
    · dsimp only at h
      refine mintNewLoop_keysets_wf secret rest _ _ _ res h ?_
      intro i k hik
      unfold alookup at hik
      split at hik
      case isTrue hcond =>
        injection hik with hik
        subst hik
        exact hcond.symm
      case isFalse _ => exact hwf i k hik

/-!
## Claim theorems (closed counterexamples and code-bug evaluations)
-/

/-- C7: `blind_sign` fails with `UnknownKeySet` when the keyset id is not
registered, with `InactiveKeyset` when it is registered but its info is
inactive, with `AmountKey` when the active keyset has no key for the
amount, and otherwise returns `{ amount, C_ = k · B_, id }` where `k` is
the keyset's secret key for the amount; on any mint built by `Mint::new`
the stored keyset's `id` equals the lookup key, i.e. the request's
`keyset_id`. -/
theorem C7_blind_sign_contract (m : Mint) (msg : BlindedMessage) :
    (alookup m.keysets msg.keyset_id = none → blind_sign m msg = .err .UnknownKeySet) ∧
    (∀ ks info, alookup m.keysets msg.keyset_id = some ks →
      alookup m.keysets_info msg.keyset_id = some info → info.active = false →
      blind_sign m msg = .err .InactiveKeyset) ∧
    (∀ ks info, alookup m.keysets msg.keyset_id = some ks →
      alookup m.keysets_info msg.keyset_id = some info → info.active = true →
      alookup ks.keys msg.amount = none → blind_sign m msg = .err .AmountKey) ∧
    (∀ ks info kp, alookup m.keysets msg.keyset_id = some ks →
      alookup m.keysets_info msg.keyset_id = some info → info.active = true →
      alookup ks.keys msg.amount = some kp →
      blind_sign m msg = .ok { amount := msg.amount
                               c := sign_message kp.secret_key msg.b
                               id := ks.id }) ∧
    (∀ seed infos spent quotes mf pf mint,
      Mint.new seed infos spent quotes mf pf = .ok mint →
      ∀ i ks, alookup mint.keysets i = some ks → ks.id = i) := by
  refine ⟨?_, ?_, ?_, ?_, ?_⟩
  · intro hks
    simp [blind_sign, hks]
  · intro ks info hks hinfo hact
    simp [blind_sign, hks, hinfo, hact]
  · intro ks info hks hinfo hact hkp
    simp [blind_sign, hks, hinfo, hact, hkp]
  · intro ks info kp hks hinfo hact hkp
    simp [blind_sign, hks, hinfo, hact, hkp]
  · intro seed infos spent quotes mf pf mint hnew i ks hlk
    unfold Mint.new at hnew
    dsimp only at hnew
    cases hloop : mintNewLoop seed infos [] [] [] with
    | ok pair =>
      rw [hloop] at hnew
      dsimp only at hnew
      injection hnew with hnew
      subst hnew
      exact mintNewLoop_keysets_wf seed infos [] [] [] pair hloop
        (fun i k h => by cases h) i ks hlk
    | err e => rw [hloop] at hnew; cases hnew
    | panic => rw [hloop] at hnew; cases hnew

/-- Witness for C7 at a concrete input: signing amount 2 with the example
mint's active keyset succeeds and returns `k₂ · B_` under the keyset's
id. -/
theorem C7_blind_sign_contract_witness :
    blind_sign exMint { amount := 2, b := 7, keyset_id := exKeySet.id } =
      .ok { amount := 2, c := sign_message (exSecretKeyFor 2) 7, id := exKeySet.id } := by
  have h := (C7_blind_sign_contract exMint
    { amount := 2, b := 7, keyset_id := exKeySet.id }).2.2.2.1
  exact h exKeySet exInfo ((alookup exKeySet.keys 2).getD (MintKeyPair.mk 0 0))
    (by rfl) (by rfl) (by rfl) (by rfl)

/-- C2 (amended): a swap or melt request carrying an already-spent secret
is never accepted (though the rejection error need not be `TokenSpent`,
and an absent melt quote panics); `spent_secrets` never shrinks under
swap, melt or mint processing; and resubmitting an accepted swap with at
least one input is rejected with `TokenSpent`. -/
theorem C2_no_double_spend (m : Mint) (r : SwapRequest) (mr : MeltBolt11Request)
    (qr : MintBolt11Request) (pre : String) (ts : Amount) :
    ((∃ p, p ∈ r.inputs ∧ p.secret ∈ m.spent_secrets) →
      (process_split_request m r).2.isOk = false) ∧
    ((∃ p, p ∈ mr.inputs ∧ p.secret ∈ m.spent_secrets) →
      (process_melt_request m mr pre ts).2.isOk = false) ∧
    (∀ s ∈ m.spent_secrets, s ∈ (process_split_request m r).1.spent_secrets) ∧
    (∀ s ∈ m.spent_secrets, s ∈ (process_melt_request m mr pre ts).1.spent_secrets) ∧
    (∀ s ∈ m.spent_secrets, s ∈ (process_mint_request m qr).1.spent_secrets) ∧
    (∀ m' resp, process_split_request m r = (m', .ok resp) → r.inputs ≠ [] →
      process_split_request m' r = (m', .err .TokenSpent)) :=
  ⟨split_not_ok_of_spent,
   melt_not_ok_of_spent,
   split_spent_monotone m r,
   fun s hs => by rw [melt_state_id]; exact hs,
   fun s hs => by rw [mint_state_id]; exact hs,
   fun _ _ h hne => split_replay h hne⟩

/-- Witness for C2 at a concrete input: the swap of two 2-sat proofs for
one 4-sat output is accepted once, and its replay is rejected with
`TokenSpent`. -/
theorem C2_no_double_spend_witness :
    process_split_request wMintAfter wSwapReq = (wMintAfter, .err .TokenSpent) := by
  have h := (C2_no_double_spend exMint wSwapReq exMeltReq
    { quote := "w", outputs := [] } "pi" 0).2.2.2.2.2
  exact h wMintAfter { signatures := wSwapSigs } (by rfl) (by decide)

/-- C3: swap validation short-circuits in the order amount mismatch
(`AmountMismatch`), duplicate secrets (`DuplicateProofs`), then per-proof
checks in the order `TokenSpent`, `UnknownKeySet`, `AmountKey`,
DHKE verification (`CryptoError` on failure); and every error return
leaves the mint state exactly as it was. -/
theorem C3_swap_validation_order (m : Mint) (r : SwapRequest) :
    (∀ m' e, process_split_request m r = (m', .err e) → m' = m) ∧
    (SwapRequest.input_amount r ≠ SwapRequest.output_amount r →
      process_split_request m r = (m, .err .AmountMismatch)) ∧
    (SwapRequest.input_amount r = SwapRequest.output_amount r →
      (r.inputs.map Proof.secret).dedup.length ≠ r.inputs.length →
      process_split_request m r = (m, .err .DuplicateProofs)) ∧
    (∀ e, SwapRequest.input_amount r = SwapRequest.output_amount r →
      (r.inputs.map Proof.secret).dedup.length = r.inputs.length →
      verify_proofs m r.inputs = .err e →
      process_split_request m r = (m, .err e)) ∧
    (∀ p, (p.secret ∈ m.spent_secrets ∧ verify_proof m p = .err .TokenSpent) ∨
      (p.secret ∉ m.spent_secrets ∧ alookup m.keysets p.id = none ∧
        verify_proof m p = .err .UnknownKeySet) ∨
      (∃ ks, p.secret ∉ m.spent_secrets ∧ alookup m.keysets p.id = some ks ∧
        alookup ks.keys p.amount = none ∧ verify_proof m p = .err .AmountKey) ∨
      (∃ ks kp, p.secret ∉ m.spent_secrets ∧ alookup m.keysets p.id = some ks ∧
        alookup ks.keys p.amount = some kp ∧
        verify_proof m p = verify_message kp.secret_key p.c p.secret)) ∧
    (∀ k c s, verify_message k c s = .ok () ∨ verify_message k c s = .err .CryptoError) :=
  ⟨fun _ _ h => split_err_state h,
   split_amount_mismatch,
   split_duplicate,
   fun _ h1 h2 hv => split_verify_err h1 h2 hv,
   verify_proof_cases m,
   verify_message_ok_or_crypto⟩

/-- Witness for C3 at a concrete input: a request with input total 1 and
output total 0 is rejected with `AmountMismatch` and the state is
returned unchanged. -/
theorem C3_swap_validation_order_witness :
    process_split_request exMint c3MismatchReq = (exMint, .err .AmountMismatch) :=
  (C3_swap_validation_order exMint c3MismatchReq).2.1 (by decide)

/-- C1: the claim states that every accepted melt inserts all input
secrets into `spent_secrets`.  The code accepts `exMeltReq` (quote `q2`,
one valid input with secret `"melt-secret"`, exactly sufficient) yet the
resulting state — unchanged, because the handler iterates over an empty
vector instead of the input secrets — does not contain that secret. -/
theorem C1_accepted_melt_leaves_secret_unspent :
    process_melt_request exMint exMeltReq "preimage" 1 =
      (exMint, .ok { paid := true, proof := "preimage", change := none }) ∧
    "melt-secret" ∈ exMeltReq.inputs.map Proof.secret ∧
    "melt-secret" ∉ (process_melt_request exMint exMeltReq "preimage" 1).1.spent_secrets :=
  ⟨rfl, by decide, by decide⟩

/-- C4: the claim states that a signing failure on a swap output aborts
with an error before any ledger mutation and never panics.  On `c4Req`
(valid input, output referencing an unknown keyset) the code panics — the
`.unwrap()` on `blind_sign` — and the state at the panic already contains
the input secret `"c4-secret"`; `blind_sign` on that output indeed fails
with `UnknownKeySet`. -/
theorem C4_output_signing_failure_panics_after_spending :
    (process_split_request exMint c4Req).2 = .panic ∧
    "c4-secret" ∈ (process_split_request exMint c4Req).1.spent_secrets ∧
    blind_sign (process_split_request exMint c4Req).1 c4Out = .err .UnknownKeySet :=
  ⟨rfl, by decide, by decide⟩

/-- C5: the claim states that a melt whose quote id is absent fails with
`UnknownQuote`.  The code resolves the quote with `.unwrap()` and panics
on `c5Req`, whose quote id is not in the quote map; the state is
unchanged at the panic. -/
theorem C5_unknown_quote_panics :
    slookup exMint.quotes c5Req.quote = none ∧
    verify_melt_request exMint c5Req = .panic ∧
    process_melt_request exMint c5Req "pi" 0 = (exMint, .panic) :=
  ⟨rfl, rfl, rfl⟩

/-- C6: the claim states that `Mint::new` on two active keyset infos
sharing a unit fails with `DuplicateActiveUnit`.  The code hits `todo!()`
— a panic — on `c6InfoA`/`c6InfoB`, both active with unit `"sat"`. -/
theorem C6_duplicate_active_unit_panics :
    c6InfoA.unit = c6InfoB.unit ∧
    c6InfoA.active = true ∧
    c6InfoB.active = true ∧
    Mint.new "seed" [c6InfoA, c6InfoB] [] [] 0 0 = .panic :=
  ⟨rfl, rfl, rfl, rfl⟩

/-- C2 (counterexample): the claim that any swap or melt carrying an
already-spent secret is rejected specifically with `TokenSpent` fails —
on `c2SpentReq` (spent secret `"s1"`, mismatched totals) the amount check
fires first and the request is rejected with `AmountMismatch`; and the
claim that resubmitting an accepted swap always yields `TokenSpent` fails
on the empty swap, which is accepted a second time. -/
theorem C2_counterexample :
    (∃ p, p ∈ c2SpentReq.inputs ∧ p.secret ∈ cmSpent.spent_secrets) ∧
    process_split_request cmSpent c2SpentReq = (cmSpent, .err .AmountMismatch) ∧
    Error.AmountMismatch ≠ Error.TokenSpent ∧
    process_split_request exMint c2EmptyReq = (exMint, .ok { signatures := [] }) ∧
    (process_split_request (process_split_request exMint c2EmptyReq).1 c2EmptyReq).2 =
      .ok { signatures := [] } :=
  ⟨⟨mkProof 1 "s1", by decide, by decide⟩, rfl, by decide, rfl, rfl⟩

/-- C9 (counterexample): the claim states that with `change_target = 6`
and 3 supplied outputs, outputs 0 and 1 receive amounts 4 and 2 (largest
first).  The code pairs the ascending decomposition `[2, 4]` with the
outputs: output 0 receives 2 and output 1 receives 4. -/
theorem C9_counterexample :
    process_melt_request exMint c9Req "pi" 10 = (exMint, .ok c9Resp) ∧
    MeltBolt11Request.proofs_amount c9Req - 10 = 6 ∧
    c9Req.outputs = some c9Outs ∧
    c9Outs.length = 3 ∧
    c9Resp.change = some c9sigs ∧
    c9sigs.map BlindedSignature.amount = [2, 4] ∧
    c9sigs.map BlindedSignature.amount ≠ [4, 2] :=
  ⟨rfl, by decide, rfl, by decide, rfl, by decide, by decide⟩

/-- C8: for every accepted melt with outputs supplied, the change
signature amounts sum to at most `proofs_total − total_spent`, with
equality exactly when at least `popcount(change_target)` outputs were
supplied. -/
theorem C8_change_sum (m m' : Mint) (r : MeltBolt11Request) (pre : String) (ts : Amount)
    (outs : List BlindedMessage) (resp : MeltBolt11Response) (sigs : List BlindedSignature)
    (houts : r.outputs = some outs)
    (h : process_melt_request m r pre ts = (m', .ok resp))
    (hch : resp.change = some sigs) :
    (sigs.map BlindedSignature.amount).sum ≤ MeltBolt11Request.proofs_amount r - ts ∧
    ((sigs.map BlindedSignature.amount).sum = MeltBolt11Request.proofs_amount r - ts ↔
      popcount (MeltBolt11Request.proofs_amount r - ts) ≤ outs.length) := by
  obtain ⟨hv, hm, hpaid, hpre, hlow, hcase⟩ := melt_ok_inversion h
  rcases hcase with ⟨ho, hc⟩ | ⟨outs', sigs', ho, hc, hs⟩
  · rw [houts] at ho
    cases ho
  rw [houts] at ho
  injection ho with ho
  subst ho
  rw [hch] at hc
  injection hc with hc
  subst hc
  have hamts := sign_change_amounts hs
  rw [zip_map_fst] at hamts
  have hl := splitAmount_length (MeltBolt11Request.proofs_amount r - ts)
  by_cases hlen : outs.length <
      (splitAmount (MeltBolt11Request.proofs_amount r - ts)).length
  · rw [if_pos hlen] at hamts
    have hperm := sortDesc_perm (splitAmount (MeltBolt11Request.proofs_amount r - ts))
    have hsum : (sortDesc (splitAmount (MeltBolt11Request.proofs_amount r - ts))).sum =
        MeltBolt11Request.proofs_amount r - ts := by
      rw [hperm.sum_eq, splitAmount_sum]
    have hlensort :
        (sortDesc (splitAmount (MeltBolt11Request.proofs_amount r - ts))).length =
        (splitAmount (MeltBolt11Request.proofs_amount r - ts)).length :=
      hperm.length_eq
    have hpos : ∀ x ∈ sortDesc (splitAmount (MeltBolt11Request.proofs_amount r - ts)),
        0 < x := fun x hx =>
      splitAmount_pos (MeltBolt11Request.proofs_amount r - ts) x (hperm.mem_iff.mp hx)
    have hstrict :
        ((sortDesc (splitAmount (MeltBolt11Request.proofs_amount r - ts))).take
          outs.length).sum <
        (sortDesc (splitAmount (MeltBolt11Request.proofs_amount r - ts))).sum :=
      sum_take_lt hpos (by omega)
    rw [hsum] at hstrict
    rw [hamts]
    refine ⟨Nat.le_of_lt hstrict, ?_, ?_⟩
    · intro heq
      exact absurd heq (Nat.ne_of_lt hstrict)
    · intro hpc
      have hple : (splitAmount (MeltBolt11Request.proofs_amount r - ts)).length ≤
          outs.length := by
        rw [hl]
        exact hpc
      exact absurd hple (Nat.not_le.mpr hlen)
  · rw [if_neg hlen] at hamts
    rw [hamts, List.take_of_length_le (by omega), splitAmount_sum]
    exact ⟨Nat.le_refl _, ⟨fun _ => by omega, fun _ => rfl⟩⟩

/-- Witness for C8 at a concrete input: the accepted melt `c9Req`
(inputs 16, spent 10, change target 6, three outputs) returns change
summing to exactly 6, and `popcount 6 = 2 ≤ 3`. -/
theorem C8_change_sum_witness :
    (c9sigs.map BlindedSignature.amount).sum ≤
      MeltBolt11Request.proofs_amount c9Req - 10 ∧
    ((c9sigs.map BlindedSignature.amount).sum =
        MeltBolt11Request.proofs_amount c9Req - 10 ↔
      popcount (MeltBolt11Request.proofs_amount c9Req - 10) ≤ c9Outs.length) :=
  C8_change_sum exMint exMint c9Req "pi" 10 c9Outs c9Resp c9sigs rfl rfl rfl

/-- C9 (amended): the change target is decomposed into power-of-two
denominations in ascending order (smallest first), and when at least as
many outputs as denominations are supplied, output `i` receives the
`i`-th smallest denomination and excess outputs are discarded; with
change target 6 and 3 outputs, outputs 0 and 1 receive 2 and 4.  (The
descending sort is applied only when fewer outputs than denominations
are supplied.) -/
theorem C9_change_pairing_ascending (m m' : Mint) (r : MeltBolt11Request) (pre : String)
    (ts : Amount) (outs : List BlindedMessage) (resp : MeltBolt11Response)
    (sigs : List BlindedSignature)
    (houts : r.outputs = some outs)
    (h : process_melt_request m r pre ts = (m', .ok resp))
    (hch : resp.change = some sigs)
    (hlen : (splitAmount (MeltBolt11Request.proofs_amount r - ts)).length ≤ outs.length) :
    sigs.map BlindedSignature.amount =
      splitAmount (MeltBolt11Request.proofs_amount r - ts) ∧
    List.Sorted (· < ·) (splitAmount (MeltBolt11Request.proofs_amount r - ts)) ∧
    (∀ x ∈ splitAmount (MeltBolt11Request.proofs_amount r - ts), ∃ i, x = 2 ^ i) ∧
    (splitAmount (MeltBolt11Request.proofs_amount r - ts)).sum =
      MeltBolt11Request.proofs_amount r - ts := by
  obtain ⟨hv, hm, hpaid, hpre, hlow, hcase⟩ := melt_ok_inversion h
  rcases hcase with ⟨ho, hc⟩ | ⟨outs', sigs', ho, hc, hs⟩
  · rw [houts] at ho
    cases ho
  rw [houts] at ho
  injection ho with ho
  subst ho
  rw [hch] at hc
  injection hc with hc
  subst hc
  have hamts := sign_change_amounts hs
  rw [zip_map_fst, if_neg (by omega), List.take_of_length_le hlen] at hamts
  exact ⟨hamts, splitAmount_sorted _, splitAmount_pow _, splitAmount_sum _⟩

/-- Witness for C9 at the concrete scenario: change target 6, three
outputs, change amounts `[2, 4]` — the ascending decomposition. -/
theorem C9_change_pairing_ascending_witness :
    c9sigs.map BlindedSignature.amount =
      splitAmount (MeltBolt11Request.proofs_amount c9Req - 10) ∧
    List.Sorted (· < ·) (splitAmount (MeltBolt11Request.proofs_amount c9Req - 10)) ∧
    (∀ x ∈ splitAmount (MeltBolt11Request.proofs_amount c9Req - 10), ∃ i, x = 2 ^ i) ∧
    (splitAmount (MeltBolt11Request.proofs_amount c9Req - 10)).sum =
      MeltBolt11Request.proofs_amount c9Req - 10 :=
  C9_change_pairing_ascending exMint exMint c9Req "pi" 10 c9Outs c9Resp c9sigs
    rfl rfl rfl (by decide)

/-- C10: the result of `process_mint_request` — response and resulting
state — is independent of the request's `quote` field, which the handler
never reads; in particular an unknown quote id is never rejected. -/
theorem C10_mint_request_ignores_quote (m : Mint) (q₁ q₂ : String)
    (outs : List BlindedMessage) :
    process_mint_request m { quote := q₁, outputs := outs } =
      process_mint_request m { quote := q₂, outputs := outs } :=
  rfl

end Cashu
